import Mathlib

/-!
Verification development for the glyph-arrangement engine of the 3d_ttf
repository (src/index.tsx).  The engine's data model (glyph objects with a
position, an orientation and a material color, collected in an ordered
group with a whole-group rotation) and its operations
(`updateGlyphArrangement`, `updateAnimatedGlyphs`, `getTorusKnotPos`, and
the per-frame driver `animate`) are embedded shallowly over the real
numbers; machine floating point is idealised as ℝ.
-/

noncomputable section

/-- A 3-component vector, mirroring THREE.Vector3. -/
structure Vec3 where
  x : ℝ
  y : ℝ
  z : ℝ

instance : Add Vec3 := ⟨fun a b => ⟨a.x + b.x, a.y + b.y, a.z + b.z⟩⟩

instance : Sub Vec3 := ⟨fun a b => ⟨a.x - b.x, a.y - b.y, a.z - b.z⟩⟩

instance : SMul ℝ Vec3 := ⟨fun c v => ⟨c * v.x, c * v.y, c * v.z⟩⟩

/-- Dot product of two vectors. -/
def vdot (a b : Vec3) : ℝ := a.x * b.x + a.y * b.y + a.z * b.z

/-- Euclidean length, as in THREE.Vector3.length. -/
def vnorm (v : Vec3) : ℝ := Real.sqrt (vdot v v)

/-- Cross product, as in THREE.Vector3.crossVectors. -/
def cross (a b : Vec3) : Vec3 :=
  ⟨a.y * b.z - a.z * b.y, a.z * b.x - a.x * b.z, a.x * b.y - a.y * b.x⟩

/-- THREE.Vector3.normalize: divide by the length, or by 1 when the length
is zero (`divideScalar(this.length() || 1)`). -/
def vnormalize (v : Vec3) : Vec3 :=
  (1 / (if vnorm v = 0 then 1 else vnorm v)) • v

/-- The seven supported arrangement shapes (the shape-select values). -/
inductive Shape
  | circle
  | grid
  | sphere
  | helix
  | mobius
  | klein
  | torusKleinKnot
deriving DecidableEq

/-- The arrangement configuration read from the UI controls on each
invocation: shape selector, spacing slider, and the knot p/q sliders. -/
structure Config where
  shape : Shape
  spacing : ℝ
  knotP : ℕ
  knotQ : ℕ

/-- An object's orientation: either a plain Euler rotation (after
`rotation.set(0,0,0)`) or the rotation produced by `lookAt target` from the
object's current position. -/
inductive Orient
  | euler (e : Vec3)
  | lookAtV (target : Vec3)

/-- A material color: either an RGB value (the initial 0x00ffdd tint) or an
HSL value written by `setHSL`. -/
inductive ColorV
  | rgb (r g b : ℝ)
  | hsl (h s l : ℝ)

/-- One glyph object: position, orientation and material color.  The mesh
geometry is owned by the external mesher and is irrelevant here. -/
structure Glyph where
  pos : Vec3
  orient : Orient
  color : ColorV

/-- The engine-visible state: the ordered glyph collection
(`glyphGroup.children`), the whole-group rotation (`glyphGroup.rotation`),
and the visibility flag of the knot controls. -/
structure EngineState where
  glyphs : List Glyph
  groupRot : Vec3
  knotVisible : Bool

/-- Truncation toward zero, as used by the JavaScript `%` operator. -/
def rtrunc (x : ℝ) : ℤ := if 0 ≤ x then ⌊x⌋ else ⌈x⌉

/-- The JavaScript remainder operator `a % b` on numbers: the remainder
carries the sign of the dividend. -/
def jsRem (a b : ℝ) : ℝ := a - b * ((rtrunc (a / b) : ℤ) : ℝ)

/-- THREE.Color.setHSL: the hue is reduced with `euclideanModulo(h, 1)`
(which equals the fractional part `Int.fract h`), and saturation and
lightness are clamped to [0,1]. -/
def setHSL (h s l : ℝ) : ColorV :=
  ColorV.hsl (Int.fract h) (max 0 (min 1 s)) (max 0 (min 1 l))

/-- getTorusKnotPos from src/index.tsx: the base torus-knot curve. -/
def getTorusKnotPos (u p q radius tubeRadius : ℝ) : Vec3 :=
  let p_u := p * u
  let q_u := q * u
  ⟨(radius + tubeRadius * Real.cos q_u) * Real.cos p_u,
   (radius + tubeRadius * Real.cos q_u) * Real.sin p_u,
   tubeRadius * Real.sin q_u⟩

/-- The per-object body of the static arranger loop in
updateGlyphArrangement: reset the object's rotation, then position and
orient it according to the selected static shape.  Shapes not named in the
switch leave the object with only the rotation reset. -/
def staticUpdate (shape : Shape) (spacing : ℝ) (count : ℕ) (camPos : Vec3)
    (i : ℕ) (g : Glyph) : Glyph :=
  let g0 := { g with orient := Orient.euler ⟨0, 0, 0⟩ }
  match shape with
  | Shape.circle =>
      let radius := max 200 ((count : ℝ) * 0.6) * spacing
      let angle := ((i : ℝ) / (count : ℝ)) * Real.pi * 2
      let p : Vec3 := ⟨radius * Real.cos angle, 0, radius * Real.sin angle⟩
      { g0 with pos := p, orient := Orient.lookAtV ⟨0, 0, 0⟩ }
  | Shape.grid =>
      let itemSize := 40 * spacing
      let cols : ℕ := ⌈Real.sqrt (count : ℝ)⌉₊
      let gridX := (((i % cols : ℕ) : ℝ) - ((cols : ℝ) - 1) / 2) * itemSize
      let gridY := (((i / cols : ℕ) : ℝ) - (((count / cols : ℕ) : ℝ) - 1) / 2) * (-itemSize)
      { g0 with pos := ⟨gridX, gridY, 0⟩, orient := Orient.lookAtV camPos }
  | Shape.sphere =>
      let sphereRadius := max 150 ((count : ℝ) * 0.25) * spacing
      let phi := Real.arccos (-1 + (2 * (i : ℝ)) / (count : ℝ))
      let theta := Real.sqrt ((count : ℝ) * Real.pi) * phi
      let p : Vec3 := ⟨sphereRadius * Real.cos theta * Real.sin phi,
                       sphereRadius * Real.sin theta * Real.sin phi,
                       sphereRadius * Real.cos phi⟩
      { g0 with pos := p, orient := Orient.lookAtV ⟨0, 0, 0⟩ }
  | Shape.helix =>
      let helixRadius := 100 * spacing
      let verticalSpacing := 15 * spacing
      let turns : ℝ := 10
      let helixAngle := ((i : ℝ) / (count : ℝ)) * Real.pi * 2 * turns
      let p : Vec3 := ⟨helixRadius * Real.cos helixAngle,
                       ((i : ℝ) - (count : ℝ) / 2) * verticalSpacing * 0.2,
                       helixRadius * Real.sin helixAngle⟩
      { g0 with pos := p, orient := Orient.lookAtV ⟨0, p.y, 0⟩ }
  | _ => g0

/-- The per-object body of updateAnimatedGlyphs: mobius, klein and
torus-klein-knot position (and, for the knot, color) the object; any other
shape leaves it untouched (no branch of the if/else chain applies). -/
def animatedUpdate (cfg : Config) (count : ℕ) (time : ℝ)
    (i : ℕ) (g : Glyph) : Glyph :=
  match cfg.shape with
  | Shape.mobius =>
      let R := 150 * cfg.spacing
      let u := ((i : ℝ) / (count : ℝ)) * Real.pi * 2 + time * 0.2
      let v := 2 * u
      let x := (R + 30 * Real.cos (v / 2)) * Real.cos u
      let y := (R + 30 * Real.cos (v / 2)) * Real.sin u
      let z := 30 * Real.sin (v / 2)
      { g with pos := ⟨x, y, z⟩, orient := Orient.lookAtV ⟨0, 0, 0⟩ }
  | Shape.klein =>
      let u := ((i : ℝ) / (count : ℝ)) * Real.pi * 2
      let v := time * 0.5
      let scale := 30 * cfg.spacing
      let r : ℝ := 4
      let p : Vec3 :=
        if u < Real.pi then
          ⟨scale * (6 * Real.cos u * (1 + Real.sin u) +
              r * (1 - Real.cos u / 2) * Real.cos u * Real.cos v),
           scale * (r * (1 - Real.cos u / 2) * Real.sin v),
           scale * (16 * Real.sin u +
              r * (1 - Real.cos u / 2) * Real.sin u * Real.cos v)⟩
        else
          ⟨scale * (6 * Real.cos u * (1 + Real.sin u) -
              r * (1 - Real.cos u / 2) * Real.cos v),
           scale * (r * (1 - Real.cos u / 2) * Real.sin v),
           scale * (16 * Real.sin u)⟩
      { g with pos := p, orient := Orient.lookAtV ⟨0, 0, 0⟩ }
  | Shape.torusKleinKnot =>
      let p := (cfg.knotP : ℝ)
      let q := (cfg.knotQ : ℝ)
      let radius := 100 * cfg.spacing
      let tubeRadius := 40 * cfg.spacing
      let animSpeed : ℝ := 0.05
      let u := (((i : ℝ) / (count : ℝ)) + time * animSpeed) * Real.pi * 2
      let P := getTorusKnotPos u p q radius tubeRadius
      let epsilon : ℝ := 0.001
      let T := vnormalize (getTorusKnotPos (u + epsilon) p q radius tubeRadius - P)
      let N := vnormalize (getTorusKnotPos u p q radius (tubeRadius + epsilon) - P)
      let B := cross T N
      let helixRadius : ℝ := 15
      let helixAngle := time * 5 + ((i : ℝ) / (count : ℝ)) * Real.pi * 8
      let helixOffset := (Real.cos helixAngle * helixRadius) • N +
                         (Real.sin helixAngle * helixRadius) • B
      let hue := jsRem (u / (Real.pi * 2)) 1
      { g with pos := P + helixOffset,
               orient := Orient.lookAtV P,
               color := setHSL hue 0.8 0.6 }
  | _ => g

/-- Apply an index-aware per-object update to the glyph list, mirroring
`glyphGroup.children.forEach((mesh, i) => ...)`. -/
def updList (f : ℕ → Glyph → Glyph) : ℕ → List Glyph → List Glyph
  | _, [] => []
  | k, g :: gs => f k g :: updList f (k + 1) gs

/-- updateAnimatedGlyphs from src/index.tsx: no-op on an empty collection,
otherwise rewrite every object from (index, count, config, time). -/
def updateAnimatedGlyphs (cfg : Config) (time : ℝ) (st : EngineState) : EngineState :=
  if st.glyphs.isEmpty then st
  else { st with glyphs := updList (animatedUpdate cfg st.glyphs.length time) 0 st.glyphs }

/-- The shapes handled by the animated arranger. -/
def isAnimated : Shape → Bool
  | Shape.mobius => true
  | Shape.klein => true
  | Shape.torusKleinKnot => true
  | _ => false

/-- The shapes that receive the per-tick whole-group spin in `animate`. -/
def isStaticSpin : Shape → Bool
  | Shape.circle => true
  | Shape.helix => true
  | Shape.sphere => true
  | Shape.grid => true
  | _ => false

/-- updateGlyphArrangement from src/index.tsx (the arrangement
dispatcher): toggle the knot-controls visibility, return if the collection
is empty, reset the whole-group rotation, then run the animated arranger at
time 0 for animated shapes or the static per-object loop otherwise. -/
def updateGlyphArrangement (cfg : Config) (camPos : Vec3) (st : EngineState) : EngineState :=
  let st1 := { st with knotVisible := decide (cfg.shape = Shape.torusKleinKnot) }
  if st1.glyphs.isEmpty then st1
  else
    let st2 := { st1 with groupRot := (⟨0, 0, 0⟩ : Vec3) }
    if isAnimated cfg.shape then updateAnimatedGlyphs cfg 0 st2
    else { st2 with
           glyphs := updList (staticUpdate cfg.shape cfg.spacing st2.glyphs.length camPos) 0 st2.glyphs }

/-- One tick of the `animate` loop, restricted to the arrangement engine:
animated shapes are re-arranged at the elapsed time; static shapes receive
the whole-group spin `rotation.y += delta * 0.05` when the collection is
non-empty. -/
def animateFrame (cfg : Config) (delta elapsed : ℝ) (st : EngineState) : EngineState :=
  let st1 := if isAnimated cfg.shape then updateAnimatedGlyphs cfg elapsed st else st
  if isStaticSpin cfg.shape then
    if st1.glyphs.isEmpty then st1
    else { st1 with groupRot := ⟨st1.groupRot.x, st1.groupRot.y + delta * 0.05, st1.groupRot.z⟩ }
  else st1

/-- The Klein figure-8 immersion used by the klein branch, as a function of
the two surface parameters: the same formulas with (u, v) abstracted. -/
def kleinUV (scale u v : ℝ) : Vec3 :=
  let r : ℝ := 4
  if u < Real.pi then
    ⟨scale * (6 * Real.cos u * (1 + Real.sin u) +
        r * (1 - Real.cos u / 2) * Real.cos u * Real.cos v),
     scale * (r * (1 - Real.cos u / 2) * Real.sin v),
     scale * (16 * Real.sin u +
        r * (1 - Real.cos u / 2) * Real.sin u * Real.cos v)⟩
  else
    ⟨scale * (6 * Real.cos u * (1 + Real.sin u) -
        r * (1 - Real.cos u / 2) * Real.cos v),
     scale * (r * (1 - Real.cos u / 2) * Real.sin v),
     scale * (16 * Real.sin u)⟩

/-- Distance from a point to the circle of radius R centred at the origin
in the xy-plane (the tube-constraint metric of the spec). -/
def distToCircle (v : Vec3) (R : ℝ) : ℝ :=
  Real.sqrt ((Real.sqrt (v.x ^ 2 + v.y ^ 2) - R) ^ 2 + v.z ^ 2)

/-- A default glyph: origin position, identity rotation, the initial
0x00ffdd material tint. -/
def gW : Glyph := ⟨⟨0, 0, 0⟩, Orient.euler ⟨0, 0, 0⟩, ColorV.rgb 0 1 (221 / 255)⟩

/-- An empty engine state with the knot controls hidden. -/
def stEmpty : EngineState := ⟨[], ⟨0, 0, 0⟩, false⟩

/-- Concrete configuration for the torus-klein-knot counterexample:
spacing 1, p = 4, q = 8. -/
def cfgC1 : Config := ⟨Shape.torusKleinKnot, 1, 4, 8⟩

/-- Sixteen glyphs, so that object 1 sits at parametric coordinate 1/16. -/
def stC1 : EngineState := ⟨List.replicate 16 gW, ⟨0, 0, 0⟩, false⟩

/-- Concrete configuration for the mobius counterexample: spacing 0.1. -/
def cfgC2 : Config := ⟨Shape.mobius, 1 / 10, 2, 3⟩

/-- Two glyphs, so that object 1 sits at parametric coordinate 1/2. -/
def stC2 : EngineState := ⟨[gW, gW], ⟨0, 0, 0⟩, false⟩

/-- A one-glyph state with an accumulated group rotation. -/
def stOne : EngineState := ⟨[gW], ⟨0, 3, 0⟩, false⟩

/-- A one-glyph state, first variant, for the determinism witness. -/
def stA : EngineState :=
  ⟨[⟨⟨1, 2, 3⟩, Orient.euler ⟨0, 0, 0⟩, ColorV.rgb 0 0 0⟩], ⟨0, 0, 0⟩, false⟩

/-- A one-glyph state, second variant, with different object fields and
group state than the first. -/
def stB : EngineState :=
  ⟨[⟨⟨4, 5, 6⟩, Orient.lookAtV ⟨1, 1, 1⟩, ColorV.rgb 1 1 1⟩], ⟨7, 8, 9⟩, true⟩

/-- The knot parameter of object 1 of 16 at time 0 (equal to π/8). -/
def uC1 : ℝ := (((1 : ℕ) : ℝ) / ((16 : ℕ) : ℝ) + 0 * 0.05) * Real.pi * 2

/-- The base knot point P at that parameter, for spacing 1, p = 4, q = 8. -/
def PC1 : Vec3 := getTorusKnotPos uC1 ((4 : ℕ) : ℝ) ((8 : ℕ) : ℝ) (100 * 1) (40 * 1)

/-- The finite-difference tangent direction (before normalization). -/
def DC1 : Vec3 :=
  getTorusKnotPos (uC1 + 0.001) ((4 : ℕ) : ℝ) ((8 : ℕ) : ℝ) (100 * 1) (40 * 1) - PC1

/-- The finite-difference tube-normal direction (before normalization). -/
def NC1 : Vec3 :=
  getTorusKnotPos uC1 ((4 : ℕ) : ℝ) ((8 : ℕ) : ℝ) (100 * 1) (40 * 1 + 0.001) - PC1

attribute [ext] Vec3

@[simp] theorem Vec3.add_x (a b : Vec3) : (a + b).x = a.x + b.x := rfl

@[simp] theorem Vec3.add_y (a b : Vec3) : (a + b).y = a.y + b.y := rfl

@[simp] theorem Vec3.add_z (a b : Vec3) : (a + b).z = a.z + b.z := rfl

@[simp] theorem Vec3.sub_x (a b : Vec3) : (a - b).x = a.x - b.x := rfl

@[simp] theorem Vec3.sub_y (a b : Vec3) : (a - b).y = a.y - b.y := rfl

@[simp] theorem Vec3.sub_z (a b : Vec3) : (a - b).z = a.z - b.z := rfl

@[simp] theorem Vec3.smul_x (c : ℝ) (v : Vec3) : (c • v).x = c * v.x := rfl

@[simp] theorem Vec3.smul_y (c : ℝ) (v : Vec3) : (c • v).y = c * v.y := rfl

@[simp] theorem Vec3.smul_z (c : ℝ) (v : Vec3) : (c • v).z = c * v.z := rfl

theorem vec_add_sub_cancel (a b : Vec3) : (a + b) - a = b := by
  ext <;> simp

theorem vdot_nonneg (v : Vec3) : 0 ≤ vdot v v := by
  unfold vdot
  nlinarith [sq_nonneg v.x, sq_nonneg v.y, sq_nonneg v.z]

theorem vnorm_eq_zero_iff (v : Vec3) : vnorm v = 0 ↔ vdot v v = 0 := by
  unfold vnorm
  rw [Real.sqrt_eq_zero']
  constructor
  · intro h
    exact le_antisymm h (vdot_nonneg v)
  · intro h
    exact le_of_eq h

theorem vnorm_sq (v : Vec3) : vnorm v ^ 2 = vdot v v := by
  unfold vnorm
  exact Real.sq_sqrt (vdot_nonneg v)

theorem vdot_smul_smul (c d : ℝ) (a b : Vec3) :
    vdot (c • a) (d • b) = c * d * vdot a b := by
  simp [vdot]
  ring

theorem vdot_vnormalize_self (v : Vec3) (h : vnorm v ≠ 0) :
    vdot (vnormalize v) (vnormalize v) = 1 := by
  unfold vnormalize
  rw [if_neg h, vdot_smul_smul]
  have hd : vdot v v ≠ 0 := fun hc => h ((vnorm_eq_zero_iff v).mpr hc)
  have hs : vnorm v ^ 2 = vdot v v := vnorm_sq v
  field_simp
  nlinarith [hs]

theorem vdot_vnormalize_le_one (v : Vec3) :
    vdot (vnormalize v) (vnormalize v) ≤ 1 := by
  by_cases h : vnorm v = 0
  · unfold vnormalize
    rw [if_pos h, vdot_smul_smul]
    rw [vnorm_eq_zero_iff] at h
    rw [h]
    norm_num
  · rw [vdot_vnormalize_self v h]

theorem vdot_vnormalize_left (v w : Vec3) (h : vnorm v ≠ 0) :
    vdot (vnormalize v) w = (1 / vnorm v) * vdot v w := by
  unfold vnormalize
  rw [if_neg h]
  simp [vdot]
  ring

theorem vdot_cross_right (a b : Vec3) : vdot b (cross a b) = 0 := by
  simp [vdot, cross]
  ring

theorem cross_lagrange (a b : Vec3) :
    vdot (cross a b) (cross a b) = vdot a a * vdot b b - vdot a b ^ 2 := by
  simp [vdot, cross]
  ring

theorem vdot_combo (c d : ℝ) (n b : Vec3) :
    vdot (c • n + d • b) (c • n + d • b) =
      c ^ 2 * vdot n n + 2 * (c * d) * vdot n b + d ^ 2 * vdot b b := by
  simp [vdot]
  ring

/-- The tube constraint: a point at angle θ around the tube and angle φ
along the main circle of radius R sits at distance T from that circle,
provided the augmented radius R + T·cos θ is nonnegative. -/
theorem tube_dist (R T θ φ : ℝ) (hT : 0 ≤ T) (hA : 0 ≤ R + T * Real.cos θ) :
    distToCircle ⟨(R + T * Real.cos θ) * Real.cos φ,
                  (R + T * Real.cos θ) * Real.sin φ,
                  T * Real.sin θ⟩ R = T := by
  unfold distToCircle
  have h1 : ((R + T * Real.cos θ) * Real.cos φ) ^ 2 +
      ((R + T * Real.cos θ) * Real.sin φ) ^ 2 = (R + T * Real.cos θ) ^ 2 := by
    have h := Real.sin_sq_add_cos_sq φ
    nlinarith [h]
  show Real.sqrt ((Real.sqrt (((R + T * Real.cos θ) * Real.cos φ) ^ 2 +
      ((R + T * Real.cos θ) * Real.sin φ) ^ 2) - R) ^ 2 + (T * Real.sin θ) ^ 2) = T
  rw [h1, Real.sqrt_sq hA]
  have h2 : (R + T * Real.cos θ - R) ^ 2 + (T * Real.sin θ) ^ 2 = T ^ 2 := by
    have h := Real.sin_sq_add_cos_sq θ
    nlinarith [h]
  rw [h2, Real.sqrt_sq hT]

theorem updList_length (f : ℕ → Glyph → Glyph) :
    ∀ (k : ℕ) (l : List Glyph), (updList f k l).length = l.length
  | _, [] => rfl
  | k, _ :: gs => by
      simp only [updList, List.length_cons, updList_length f (k + 1) gs]

theorem updList_getD (f : ℕ → Glyph → Glyph) (d : Glyph) :
    ∀ (l : List Glyph) (k i : ℕ), i < l.length →
      (updList f k l).getD i d = f (k + i) (l.getD i d)
  | [], _, _, h => absurd h (by simp)
  | g :: gs, k, 0, _ => by simp [updList]
  | g :: gs, k, i + 1, h => by
      have hlen : i < gs.length := by simpa using h
      simp only [updList, List.getD_cons_succ]
      rw [updList_getD f d gs (k + 1) i hlen]
      congr 1
      omega

theorem updList_map_pos (f : ℕ → Glyph → Glyph)
    (hf : ∀ k g g', (f k g).pos = (f k g').pos) :
    ∀ (k : ℕ) (l₁ l₂ : List Glyph), l₁.length = l₂.length →
      (updList f k l₁).map Glyph.pos = (updList f k l₂).map Glyph.pos
  | _, [], [], _ => rfl
  | _, [], _ :: _, h => absurd h (by simp)
  | _, _ :: _, [], h => absurd h (by simp)
  | k, g :: gs, g' :: gs', h => by
      have hlen : gs.length = gs'.length := by simpa using h
      simp only [updList, List.map_cons]
      rw [hf k g g', updList_map_pos f hf (k + 1) gs gs' hlen]

theorem updList_map_color (f : ℕ → Glyph → Glyph)
    (hf : ∀ k g, (f k g).color = g.color) :
    ∀ (k : ℕ) (l : List Glyph),
      (updList f k l).map Glyph.color = l.map Glyph.color
  | _, [] => rfl
  | k, g :: gs => by
      simp only [updList, List.map_cons]
      rw [hf k g, updList_map_color f hf (k + 1) gs]

theorem updateAnimatedGlyphs_groupRot (cfg : Config) (t : ℝ) (st : EngineState) :
    (updateAnimatedGlyphs cfg t st).groupRot = st.groupRot := by
  unfold updateAnimatedGlyphs
  split <;> rfl

theorem updateAnimatedGlyphs_knotVisible (cfg : Config) (t : ℝ) (st : EngineState) :
    (updateAnimatedGlyphs cfg t st).knotVisible = st.knotVisible := by
  unfold updateAnimatedGlyphs
  split <;> rfl

theorem updateAnimatedGlyphs_length (cfg : Config) (t : ℝ) (st : EngineState) :
    (updateAnimatedGlyphs cfg t st).glyphs.length = st.glyphs.length := by
  unfold updateAnimatedGlyphs
  split
  · rfl
  · simp [updList_length]

theorem animateFrame_length (cfg : Config) (d e : ℝ) (st : EngineState) :
    (animateFrame cfg d e st).glyphs.length = st.glyphs.length := by
  unfold animateFrame
  cases h1 : isAnimated cfg.shape <;> cases h2 : isStaticSpin cfg.shape <;>
    simp only [h1, h2, Bool.false_eq_true, if_false, if_true] <;>
      first
        | simp [updateAnimatedGlyphs_length]
        | (split <;> simp [updateAnimatedGlyphs_length])

theorem staticSpin_not_animated (sh : Shape) (h : isStaticSpin sh = true) :
    isAnimated sh = false := by
  cases sh <;> simp_all [isAnimated, isStaticSpin]

/-- C3: for every count, index and spacing, the static circle arranger
places object i at (r·cos((i/count)·2π), 0, r·sin((i/count)·2π)) with
r = max(200, count·0.6)·spacing; in particular for count = 4 and
spacing = 1 the four objects sit at (200,0,0), (0,0,200), (−200,0,0) and
(0,0,−200) exactly. -/
theorem circle_arrangement_C3 (count i : ℕ) (s : ℝ) (cam : Vec3) (g : Glyph) :
    (staticUpdate Shape.circle s count cam i g).pos =
      ⟨max 200 ((count : ℝ) * 0.6) * s *
         Real.cos (((i : ℝ) / (count : ℝ)) * (2 * Real.pi)),
       0,
       max 200 ((count : ℝ) * 0.6) * s *
         Real.sin (((i : ℝ) / (count : ℝ)) * (2 * Real.pi))⟩ ∧
    (staticUpdate Shape.circle 1 4 cam 0 g).pos = ⟨200, 0, 0⟩ ∧
    (staticUpdate Shape.circle 1 4 cam 1 g).pos = ⟨0, 0, 200⟩ ∧
    (staticUpdate Shape.circle 1 4 cam 2 g).pos = ⟨-200, 0, 0⟩ ∧
    (staticUpdate Shape.circle 1 4 cam 3 g).pos = ⟨0, 0, -200⟩ := by
  have hmax : max (200 : ℝ) (((4 : ℕ) : ℝ) * 0.6) = 200 := by
    rw [max_eq_left]
    push_cast
    norm_num
  refine ⟨?_, ?_, ?_, ?_, ?_⟩
  · show (⟨max 200 ((count : ℝ) * 0.6) * s *
        Real.cos (((i : ℝ) / (count : ℝ)) * Real.pi * 2), 0,
        max 200 ((count : ℝ) * 0.6) * s *
        Real.sin (((i : ℝ) / (count : ℝ)) * Real.pi * 2)⟩ : Vec3) = _
    rw [show ((i : ℝ) / (count : ℝ)) * (2 * Real.pi) =
        ((i : ℝ) / (count : ℝ)) * Real.pi * 2 by ring]
  · show (⟨max 200 (((4 : ℕ) : ℝ) * 0.6) * 1 *
        Real.cos ((((0 : ℕ) : ℝ) / ((4 : ℕ) : ℝ)) * Real.pi * 2), 0,
        max 200 (((4 : ℕ) : ℝ) * 0.6) * 1 *
        Real.sin ((((0 : ℕ) : ℝ) / ((4 : ℕ) : ℝ)) * Real.pi * 2)⟩ : Vec3) = _
    rw [hmax]
    rw [show (((0 : ℕ) : ℝ) / ((4 : ℕ) : ℝ)) * Real.pi * 2 = 0 by push_cast; ring]
    ext <;> simp
  · show (⟨max 200 (((4 : ℕ) : ℝ) * 0.6) * 1 *
        Real.cos ((((1 : ℕ) : ℝ) / ((4 : ℕ) : ℝ)) * Real.pi * 2), 0,
        max 200 (((4 : ℕ) : ℝ) * 0.6) * 1 *
        Real.sin ((((1 : ℕ) : ℝ) / ((4 : ℕ) : ℝ)) * Real.pi * 2)⟩ : Vec3) = _
    rw [hmax]
    rw [show (((1 : ℕ) : ℝ) / ((4 : ℕ) : ℝ)) * Real.pi * 2 = Real.pi / 2 by
      push_cast; ring]
    ext <;> simp
  · show (⟨max 200 (((4 : ℕ) : ℝ) * 0.6) * 1 *
        Real.cos ((((2 : ℕ) : ℝ) / ((4 : ℕ) : ℝ)) * Real.pi * 2), 0,
        max 200 (((4 : ℕ) : ℝ) * 0.6) * 1 *
        Real.sin ((((2 : ℕ) : ℝ) / ((4 : ℕ) : ℝ)) * Real.pi * 2)⟩ : Vec3) = _
    rw [hmax]
    rw [show (((2 : ℕ) : ℝ) / ((4 : ℕ) : ℝ)) * Real.pi * 2 = Real.pi by
      push_cast; ring]
    ext <;> simp
  · show (⟨max 200 (((4 : ℕ) : ℝ) * 0.6) * 1 *
        Real.cos ((((3 : ℕ) : ℝ) / ((4 : ℕ) : ℝ)) * Real.pi * 2), 0,
        max 200 (((4 : ℕ) : ℝ) * 0.6) * 1 *
        Real.sin ((((3 : ℕ) : ℝ) / ((4 : ℕ) : ℝ)) * Real.pi * 2)⟩ : Vec3) = _
    rw [hmax]
    rw [show (((3 : ℕ) : ℝ) / ((4 : ℕ) : ℝ)) * Real.pi * 2 = Real.pi + Real.pi / 2 by
      push_cast; ring]
    ext <;> simp [Real.cos_add, Real.sin_add]

/-- C4: for the klein shape the computed position factors through
kleinUV scale u v with u = (i/count)·2π fixed per object and independent of
time, and v = time·0.5 shared by all objects: time enters the position only
through the single parameter v, with no per-index phase offset of v. -/
theorem klein_lockstep_C4 (s : ℝ) (p q count i : ℕ) (t : ℝ) (g : Glyph) :
    (animatedUpdate ⟨Shape.klein, s, p, q⟩ count t i g).pos =
      kleinUV (30 * s) (((i : ℝ) / (count : ℝ)) * Real.pi * 2) (t * 0.5) := rfl

/-- C6: with an empty glyph collection, both arrangers return without
modifying any object or the group rotation, and without failing: the
animated arranger is the identity, and the dispatcher leaves the glyph
list and the group rotation untouched. -/
theorem empty_noop_C6 (cfg : Config) (cam : Vec3) (t : ℝ) (st : EngineState)
    (h : st.glyphs = []) :
    (updateGlyphArrangement cfg cam st).glyphs = st.glyphs ∧
    (updateGlyphArrangement cfg cam st).groupRot = st.groupRot ∧
    updateAnimatedGlyphs cfg t st = st := by
  have hemp : st.glyphs.isEmpty = true := by simp [h]
  unfold updateGlyphArrangement updateAnimatedGlyphs
  simp [hemp]

theorem empty_noop_C6_witness :
    (updateGlyphArrangement ⟨Shape.circle, 1, 2, 3⟩ ⟨0, 0, 0⟩ stEmpty).glyphs = stEmpty.glyphs ∧
    (updateGlyphArrangement ⟨Shape.circle, 1, 2, 3⟩ ⟨0, 0, 0⟩ stEmpty).groupRot = stEmpty.groupRot ∧
    updateAnimatedGlyphs ⟨Shape.circle, 1, 2, 3⟩ 0 stEmpty = stEmpty :=
  empty_noop_C6 ⟨Shape.circle, 1, 2, 3⟩ ⟨0, 0, 0⟩ 0 stEmpty rfl

/-- C7 counterexample: invoked on an empty collection with the
torus-klein-knot shape selected, the dispatcher is not a complete no-op: it
still flips the knot-controls visibility flag from hidden to visible,
because the visibility toggle precedes the empty-collection check. -/
theorem dispatcher_empty_C7_cex :
    (updateGlyphArrangement ⟨Shape.torusKleinKnot, 1, 4, 8⟩ ⟨0, 0, 0⟩ stEmpty).knotVisible = true ∧
    stEmpty.knotVisible = false := by
  constructor
  · simp [updateGlyphArrangement, stEmpty]
  · rfl

/-- C7 (amended): invoked on an empty collection, the dispatcher first
sets the knot-controls visibility flag from the selected shape (visible iff
torus-klein-knot) and then returns immediately: it does not reset the
whole-group rotation and does not invoke either arranger (the glyph list is
returned untouched). -/
theorem dispatcher_empty_C7 (cfg : Config) (cam : Vec3) (st : EngineState)
    (h : st.glyphs = []) :
    ((updateGlyphArrangement cfg cam st).knotVisible = true ↔
       cfg.shape = Shape.torusKleinKnot) ∧
    (updateGlyphArrangement cfg cam st).groupRot = st.groupRot ∧
    (updateGlyphArrangement cfg cam st).glyphs = st.glyphs := by
  have hemp : st.glyphs.isEmpty = true := by simp [h]
  unfold updateGlyphArrangement
  simp [hemp]

theorem dispatcher_empty_C7_witness :
    ((updateGlyphArrangement ⟨Shape.mobius, 1, 4, 8⟩ ⟨0, 0, 0⟩ stEmpty).knotVisible = true ↔
       Shape.mobius = Shape.torusKleinKnot) ∧
    (updateGlyphArrangement ⟨Shape.mobius, 1, 4, 8⟩ ⟨0, 0, 0⟩ stEmpty).groupRot = stEmpty.groupRot ∧
    (updateGlyphArrangement ⟨Shape.mobius, 1, 4, 8⟩ ⟨0, 0, 0⟩ stEmpty).glyphs = stEmpty.glyphs :=
  dispatcher_empty_C7 ⟨Shape.mobius, 1, 4, 8⟩ ⟨0, 0, 0⟩ stEmpty rfl

/-- C8: on any invocation with a non-empty collection the dispatcher
resets the whole-group rotation to identity, so the rotation accumulated by
the per-tick spin (rate 0.05 per second of frame delta around the vertical
axis, second conjunct) is zeroed before placement (third conjunct applies
the dispatcher right after a spinning frame). -/
theorem dispatcher_resets_rotation_C8 (cfg cfg' : Config) (cam : Vec3)
    (d e : ℝ) (st : EngineState) (h : st.glyphs ≠ []) :
    (updateGlyphArrangement cfg cam st).groupRot = ⟨0, 0, 0⟩ ∧
    (isStaticSpin cfg'.shape = true →
      (animateFrame cfg' d e st).groupRot =
        ⟨st.groupRot.x, st.groupRot.y + d * 0.05, st.groupRot.z⟩) ∧
    (updateGlyphArrangement cfg cam (animateFrame cfg' d e st)).groupRot = ⟨0, 0, 0⟩ := by
  have key : ∀ st' : EngineState, st'.glyphs ≠ [] →
      (updateGlyphArrangement cfg cam st').groupRot = ⟨0, 0, 0⟩ := by
    intro st' h'
    have hemp : st'.glyphs.isEmpty = false := by
      cases hl : st'.glyphs with
      | nil => exact absurd hl h'
      | cons a l => simp [hl]
    unfold updateGlyphArrangement
    simp only [hemp, Bool.false_eq_true, if_false]
    split
    · rw [updateAnimatedGlyphs_groupRot]
    · rfl
  refine ⟨key st h, ?_, ?_⟩
  · intro hspin
    have hanim : isAnimated cfg'.shape = false := staticSpin_not_animated _ hspin
    have hemp : st.glyphs.isEmpty = false := by
      cases hl : st.glyphs with
      | nil => exact absurd hl h
      | cons a l => simp [hl]
    unfold animateFrame
    simp [hanim, hspin, hemp]
  · apply key
    intro hnil
    have := animateFrame_length cfg' d e st
    rw [hnil] at this
    simp at this
    exact h (List.length_eq_zero.mp this.symm)

theorem staticUpdate_pos_indep (sh : Shape) (s : ℝ) (count : ℕ) (cam : Vec3)
    (i : ℕ) (g g' : Glyph) (h : isAnimated sh = false) :
    (staticUpdate sh s count cam i g).pos = (staticUpdate sh s count cam i g').pos := by
  cases sh <;> simp_all [staticUpdate, isAnimated]

theorem animatedUpdate_pos_indep (cfg : Config) (count : ℕ) (t : ℝ)
    (i : ℕ) (g g' : Glyph) (h : isAnimated cfg.shape = true) :
    (animatedUpdate cfg count t i g).pos = (animatedUpdate cfg count t i g').pos := by
  rcases cfg with ⟨sh, s, p, q⟩
  cases sh <;> simp_all [animatedUpdate, isAnimated]

theorem staticUpdate_color_pres (sh : Shape) (s : ℝ) (count : ℕ) (cam : Vec3)
    (i : ℕ) (g : Glyph) :
    (staticUpdate sh s count cam i g).color = g.color := by
  cases sh <;> simp [staticUpdate]

theorem animatedUpdate_color_pres (cfg : Config) (count : ℕ) (t : ℝ)
    (i : ℕ) (g : Glyph) (h : cfg.shape ≠ Shape.torusKleinKnot) :
    (animatedUpdate cfg count t i g).color = g.color := by
  rcases cfg with ⟨sh, s, p, q⟩
  cases sh <;> simp_all [animatedUpdate]

theorem dispatcher_resets_rotation_C8_witness :
    (updateGlyphArrangement ⟨Shape.circle, 1, 2, 3⟩ ⟨0, 0, 0⟩ stOne).groupRot = ⟨0, 0, 0⟩ ∧
    (isStaticSpin (⟨Shape.circle, 1, 2, 3⟩ : Config).shape = true →
      (animateFrame ⟨Shape.circle, 1, 2, 3⟩ 1 0 stOne).groupRot =
        ⟨stOne.groupRot.x, stOne.groupRot.y + 1 * 0.05, stOne.groupRot.z⟩) ∧
    (updateGlyphArrangement ⟨Shape.circle, 1, 2, 3⟩ ⟨0, 0, 0⟩
        (animateFrame ⟨Shape.circle, 1, 2, 3⟩ 1 0 stOne)).groupRot = ⟨0, 0, 0⟩ :=
  dispatcher_resets_rotation_C8 ⟨Shape.circle, 1, 2, 3⟩ ⟨Shape.circle, 1, 2, 3⟩
    ⟨0, 0, 0⟩ 1 0 stOne (by simp [stOne])

/-- C5: the arrangement computation is deterministic with no hidden state:
the positions written by the dispatcher — and by the animated arranger for
animated shapes — are a function of (index, count, configuration, time)
alone, so two invocations on states with the same object count produce
identical position output, whatever the prior object fields, group
rotation or flag values were. -/
theorem updateGlyphArrangement_glyphs_anim (cfg : Config) (cam : Vec3)
    (st : EngineState) (ha : isAnimated cfg.shape = true) (hne : st.glyphs ≠ []) :
    (updateGlyphArrangement cfg cam st).glyphs =
      updList (animatedUpdate cfg st.glyphs.length 0) 0 st.glyphs := by
  unfold updateGlyphArrangement updateAnimatedGlyphs
  simp [ha, hne]

theorem updateGlyphArrangement_glyphs_static (cfg : Config) (cam : Vec3)
    (st : EngineState) (ha : isAnimated cfg.shape = false) (hne : st.glyphs ≠ []) :
    (updateGlyphArrangement cfg cam st).glyphs =
      updList (staticUpdate cfg.shape cfg.spacing st.glyphs.length cam) 0 st.glyphs := by
  unfold updateGlyphArrangement
  simp [ha, hne]

theorem updateAnimatedGlyphs_map_pos (cfg : Config) (t : ℝ) (st₁ st₂ : EngineState)
    (ha : isAnimated cfg.shape = true)
    (hlen : st₁.glyphs.length = st₂.glyphs.length) :
    (updateAnimatedGlyphs cfg t st₁).glyphs.map Glyph.pos =
      (updateAnimatedGlyphs cfg t st₂).glyphs.map Glyph.pos := by
  unfold updateAnimatedGlyphs
  by_cases he : st₁.glyphs = []
  · have he₂ : st₂.glyphs = [] := by
      rw [he] at hlen
      simpa using hlen.symm
    rw [if_pos (by simp [he]), if_pos (by simp [he₂]), he, he₂]
  · have he₂ : st₂.glyphs ≠ [] := by
      intro hc
      rw [hc] at hlen
      simp only [List.length_nil, List.length_eq_zero] at hlen
      exact he hlen
    rw [if_neg (by simp [he]), if_neg (by simp [he₂])]
    show (updList (animatedUpdate cfg st₁.glyphs.length t) 0 st₁.glyphs).map Glyph.pos = _
    rw [hlen]
    exact updList_map_pos _ (fun k g gq => animatedUpdate_pos_indep cfg _ t k g gq ha)
      0 st₁.glyphs st₂.glyphs hlen

theorem arrangement_deterministic_C5 (cfg : Config) (cam : Vec3) (t : ℝ)
    (st₁ st₂ : EngineState) (hlen : st₁.glyphs.length = st₂.glyphs.length) :
    (updateGlyphArrangement cfg cam st₁).glyphs.map Glyph.pos =
      (updateGlyphArrangement cfg cam st₂).glyphs.map Glyph.pos ∧
    (isAnimated cfg.shape = true →
      (updateAnimatedGlyphs cfg t st₁).glyphs.map Glyph.pos =
        (updateAnimatedGlyphs cfg t st₂).glyphs.map Glyph.pos) := by
  constructor
  · by_cases he : st₁.glyphs = []
    · have he₂ : st₂.glyphs = [] := by
        rw [he] at hlen
        simpa using hlen.symm
      unfold updateGlyphArrangement
      rw [if_pos (by simp [he]), if_pos (by simp [he₂])]
      show st₁.glyphs.map Glyph.pos = st₂.glyphs.map Glyph.pos
      rw [he, he₂]
    · have he₂ : st₂.glyphs ≠ [] := by
        intro hc
        rw [hc] at hlen
        simp only [List.length_nil, List.length_eq_zero] at hlen
        exact he hlen
      by_cases ha : isAnimated cfg.shape = true
      · rw [updateGlyphArrangement_glyphs_anim cfg cam st₁ ha he,
            updateGlyphArrangement_glyphs_anim cfg cam st₂ ha he₂, hlen]
        exact updList_map_pos _
          (fun k g gq => animatedUpdate_pos_indep cfg _ 0 k g gq ha)
          0 st₁.glyphs st₂.glyphs hlen
      · have hb : isAnimated cfg.shape = false := by simpa using ha
        rw [updateGlyphArrangement_glyphs_static cfg cam st₁ hb he,
            updateGlyphArrangement_glyphs_static cfg cam st₂ hb he₂, hlen]
        exact updList_map_pos _
          (fun k g gq => staticUpdate_pos_indep cfg.shape cfg.spacing _ cam k g gq hb)
          0 st₁.glyphs st₂.glyphs hlen
  · intro ha
    exact updateAnimatedGlyphs_map_pos cfg t st₁ st₂ ha hlen

theorem arrangement_deterministic_C5_witness :
    ((updateGlyphArrangement ⟨Shape.mobius, 2, 2, 3⟩ ⟨0, 0, 0⟩ stA).glyphs.map Glyph.pos =
      (updateGlyphArrangement ⟨Shape.mobius, 2, 2, 3⟩ ⟨0, 0, 0⟩ stB).glyphs.map Glyph.pos) ∧
    (isAnimated (⟨Shape.mobius, 2, 2, 3⟩ : Config).shape = true →
      (updateAnimatedGlyphs ⟨Shape.mobius, 2, 2, 3⟩ 7 stA).glyphs.map Glyph.pos =
        (updateAnimatedGlyphs ⟨Shape.mobius, 2, 2, 3⟩ 7 stB).glyphs.map Glyph.pos) :=
  arrangement_deterministic_C5 ⟨Shape.mobius, 2, 2, 3⟩ ⟨0, 0, 0⟩ 7 stA stB rfl

/-- C9: arrangements for every shape other than torus-klein-knot leave
every object's material color unchanged (dispatcher and per-tick animated
calls alike); the torus-klein-knot arrangement writes object i's color as
HSL with hue (u mod 2π)/2π, saturation 0.8 and lightness 0.6, where
u = ((i/count) + time·0.05)·2π. -/
theorem color_mutation_C9 (cfg : Config) (cam : Vec3) (t s : ℝ) (pk qk : ℕ)
    (st : EngineState) (i : ℕ) (gd : Glyph)
    (hshape : cfg.shape ≠ Shape.torusKleinKnot) (hi : i < st.glyphs.length) :
    (updateGlyphArrangement cfg cam st).glyphs.map Glyph.color =
      st.glyphs.map Glyph.color ∧
    (updateAnimatedGlyphs cfg t st).glyphs.map Glyph.color =
      st.glyphs.map Glyph.color ∧
    ((updateAnimatedGlyphs ⟨Shape.torusKleinKnot, s, pk, qk⟩ t st).glyphs.getD i gd).color =
      ColorV.hsl
        (((((i : ℝ) / (st.glyphs.length : ℝ)) + t * 0.05) * Real.pi * 2 -
            Real.pi * 2 *
              ((⌊(((i : ℝ) / (st.glyphs.length : ℝ)) + t * 0.05) * Real.pi * 2 /
                  (Real.pi * 2)⌋ : ℤ) : ℝ)) /
          (Real.pi * 2))
        0.8 0.6 := by
  have hne : st.glyphs ≠ [] := by
    intro hc
    rw [hc] at hi
    simp at hi
  have hcolors : ∀ t' : ℝ,
      (updateAnimatedGlyphs cfg t' st).glyphs.map Glyph.color =
        st.glyphs.map Glyph.color := by
    intro t'
    unfold updateAnimatedGlyphs
    split
    · rfl
    · exact updList_map_color _
        (fun k g => animatedUpdate_color_pres cfg _ t' k g hshape) 0 st.glyphs
  refine ⟨?_, hcolors t, ?_⟩
  · by_cases ha : isAnimated cfg.shape = true
    · rw [updateGlyphArrangement_glyphs_anim cfg cam st ha hne]
      exact updList_map_color _
        (fun k g => animatedUpdate_color_pres cfg _ 0 k g hshape) 0 st.glyphs
    · rw [updateGlyphArrangement_glyphs_static cfg cam st (by simpa using ha) hne]
      exact updList_map_color _
        (fun k g => staticUpdate_color_pres cfg.shape cfg.spacing _ cam k g) 0 st.glyphs
  · unfold updateAnimatedGlyphs
    rw [if_neg (by simp [hne])]
    show ((updList (animatedUpdate ⟨Shape.torusKleinKnot, s, pk, qk⟩
        st.glyphs.length t) 0 st.glyphs).getD i gd).color = _
    rw [updList_getD _ gd st.glyphs 0 i hi, Nat.zero_add]
    show (setHSL (jsRem ((((i : ℝ) / (st.glyphs.length : ℝ)) + t * 0.05) * Real.pi * 2 /
        (Real.pi * 2)) 1) 0.8 0.6) = _
    unfold setHSL jsRem
    have hclamp₁ : max (0 : ℝ) (min 1 0.8) = 0.8 := by norm_num
    have hclamp₂ : max (0 : ℝ) (min 1 0.6) = 0.6 := by norm_num
    rw [hclamp₁, hclamp₂]
    congr 1
    rw [div_one, one_mul]
    rw [Int.fract_sub_int]
    rw [Int.fract]
    have hpi : (Real.pi * 2) ≠ 0 := by positivity
    field_simp

theorem color_mutation_C9_witness :
    (updateGlyphArrangement ⟨Shape.klein, 1, 2, 3⟩ ⟨0, 0, 0⟩ stOne).glyphs.map Glyph.color =
      stOne.glyphs.map Glyph.color ∧
    (updateAnimatedGlyphs ⟨Shape.klein, 1, 2, 3⟩ 0 stOne).glyphs.map Glyph.color =
      stOne.glyphs.map Glyph.color ∧
    ((updateAnimatedGlyphs ⟨Shape.torusKleinKnot, 1, 2, 3⟩ 0 stOne).glyphs.getD 0 gW).color =
      ColorV.hsl
        (((((0 : ℕ) : ℝ) / (stOne.glyphs.length : ℝ) + 0 * 0.05) * Real.pi * 2 -
            Real.pi * 2 *
              ((⌊(((0 : ℕ) : ℝ) / (stOne.glyphs.length : ℝ) + 0 * 0.05) * Real.pi * 2 /
                  (Real.pi * 2)⌋ : ℤ) : ℝ)) /
          (Real.pi * 2))
        0.8 0.6 :=
  color_mutation_C9 ⟨Shape.klein, 1, 2, 3⟩ ⟨0, 0, 0⟩ 0 1 2 3 stOne 0 gW
    (by decide) (by simp [stOne])

/-- C2 counterexample: the claim fails for small positive spacing.  With
spacing 0.1 (so R = 15 < 30), count 2, index 1 and time 0 the mobius
position is (15, 0, 0), whose distance from the circle of radius R in the
xy-plane is 0, not 30. -/
theorem mobius_tube_C2_cex :
    distToCircle ((updateAnimatedGlyphs cfgC2 0 stC2).glyphs.getD 1 gW).pos
      (150 * (1 / 10)) ≠ 30 := by
  have hg : (updateAnimatedGlyphs cfgC2 0 stC2).glyphs.getD 1 gW =
      animatedUpdate cfgC2 2 0 1 gW := by
    unfold updateAnimatedGlyphs
    rw [if_neg (by simp [stC2])]
    show (updList (animatedUpdate cfgC2 stC2.glyphs.length 0) 0 stC2.glyphs).getD 1 gW = _
    rw [updList_getD _ gW stC2.glyphs 0 1 (by simp [stC2])]
    rfl
  rw [hg]
  have h0 : (animatedUpdate cfgC2 2 0 1 gW).pos =
      ⟨(150 * (1 / 10) + 30 * Real.cos
          ((2 * (((1 : ℕ) : ℝ) / ((2 : ℕ) : ℝ) * Real.pi * 2 + 0 * 0.2)) / 2)) *
        Real.cos (((1 : ℕ) : ℝ) / ((2 : ℕ) : ℝ) * Real.pi * 2 + 0 * 0.2),
       (150 * (1 / 10) + 30 * Real.cos
          ((2 * (((1 : ℕ) : ℝ) / ((2 : ℕ) : ℝ) * Real.pi * 2 + 0 * 0.2)) / 2)) *
        Real.sin (((1 : ℕ) : ℝ) / ((2 : ℕ) : ℝ) * Real.pi * 2 + 0 * 0.2),
       30 * Real.sin
          ((2 * (((1 : ℕ) : ℝ) / ((2 : ℕ) : ℝ) * Real.pi * 2 + 0 * 0.2)) / 2)⟩ := rfl
  have hu : ((1 : ℕ) : ℝ) / ((2 : ℕ) : ℝ) * Real.pi * 2 + 0 * 0.2 = Real.pi := by
    push_cast
    ring
  have hpos : (animatedUpdate cfgC2 2 0 1 gW).pos = ⟨15, 0, 0⟩ := by
    rw [h0, hu, show (2 * Real.pi) / 2 = Real.pi by ring, Real.cos_pi, Real.sin_pi]
    ext <;> norm_num
  rw [hpos]
  unfold distToCircle
  show Real.sqrt ((Real.sqrt ((15 : ℝ) ^ 2 + 0 ^ 2) - 150 * (1 / 10)) ^ 2 + 0 ^ 2) ≠ 30
  rw [show (15 : ℝ) ^ 2 + 0 ^ 2 = 15 ^ 2 by norm_num,
      Real.sqrt_sq (by norm_num : (0 : ℝ) ≤ 15),
      show ((15 : ℝ) - 150 * (1 / 10)) ^ 2 + 0 ^ 2 = 0 by norm_num,
      Real.sqrt_zero]
  norm_num

/-- C2 (amended): for the mobius shape, for every count ≥ 1, index
i < count, every time, and every spacing ≥ 1/5 (so that R = 150·spacing is
at least the tube radius 30), the computed position lies at distance
exactly 30 from the circle of radius R = 150·spacing in the xy-plane;
for positive spacing below 1/5 the folded band can cross the axis and the
property fails. -/
theorem mobius_tube_C2 (count i pk qk : ℕ) (s t : ℝ) (g : Glyph)
    (h1 : 1 ≤ count) (h2 : i < count) (hs : 1 / 5 ≤ s) :
    distToCircle ((animatedUpdate ⟨Shape.mobius, s, pk, qk⟩ count t i g).pos)
      (150 * s) = 30 := by
  have hpos : (animatedUpdate ⟨Shape.mobius, s, pk, qk⟩ count t i g).pos =
      ⟨(150 * s + 30 * Real.cos
          ((2 * (((i : ℝ) / (count : ℝ)) * Real.pi * 2 + t * 0.2)) / 2)) *
        Real.cos (((i : ℝ) / (count : ℝ)) * Real.pi * 2 + t * 0.2),
       (150 * s + 30 * Real.cos
          ((2 * (((i : ℝ) / (count : ℝ)) * Real.pi * 2 + t * 0.2)) / 2)) *
        Real.sin (((i : ℝ) / (count : ℝ)) * Real.pi * 2 + t * 0.2),
       30 * Real.sin
          ((2 * (((i : ℝ) / (count : ℝ)) * Real.pi * 2 + t * 0.2)) / 2)⟩ := rfl
  rw [hpos]
  have hA : 0 ≤ 150 * s + 30 * Real.cos
      ((2 * (((i : ℝ) / (count : ℝ)) * Real.pi * 2 + t * 0.2)) / 2) := by
    nlinarith [Real.neg_one_le_cos
      ((2 * (((i : ℝ) / (count : ℝ)) * Real.pi * 2 + t * 0.2)) / 2)]
  exact tube_dist (150 * s) 30 _ _ (by norm_num) hA

theorem mobius_tube_C2_witness :
    distToCircle ((animatedUpdate ⟨Shape.mobius, 1, 2, 3⟩ 1 0 0 gW).pos) (150 * 1) = 30 :=
  mobius_tube_C2 1 0 2 3 1 0 gW (le_refl 1) (by norm_num) (by norm_num)

/-- C10 counterexample: the contrast clause fails at u = 0.  For the
object with index 0 of a 2-glyph collection (u = 0 < π, spacing 1) the
z-coordinate is constantly 0 for every time — the cos(v) term of the z
formula has coefficient proportional to sin u = 0 — so it is not the case
that every u < π object has both x and z varying with time. -/
theorem klein_branch_C10_cex :
    ¬ ∃ t₁ t₂ : ℝ,
      ((animatedUpdate ⟨Shape.klein, 1, 2, 3⟩ 2 t₁ 0 gW).pos).z ≠
        ((animatedUpdate ⟨Shape.klein, 1, 2, 3⟩ 2 t₂ 0 gW).pos).z := by
  have hz : ∀ t : ℝ, ((animatedUpdate ⟨Shape.klein, 1, 2, 3⟩ 2 t 0 gW).pos).z = 0 := by
    intro t
    have h0 : (animatedUpdate ⟨Shape.klein, 1, 2, 3⟩ 2 t 0 gW).pos =
        kleinUV (30 * 1) (((0 : ℕ) : ℝ) / ((2 : ℕ) : ℝ) * Real.pi * 2) (t * 0.5) := rfl
    have hu : ((0 : ℕ) : ℝ) / ((2 : ℕ) : ℝ) * Real.pi * 2 = 0 := by
      push_cast
      ring
    rw [h0, hu]
    unfold kleinUV
    rw [if_pos Real.pi_pos]
    show (30 : ℝ) * 1 *
        (16 * Real.sin 0 + 4 * (1 - Real.cos 0 / 2) * Real.sin 0 * Real.cos (t * 0.5)) = 0
    rw [Real.sin_zero]
    ring
  rintro ⟨t₁, t₂, hne⟩
  exact hne ((hz t₁).trans (hz t₂).symm)

/-- C10 (amended): for the klein shape, an object whose fixed parameter
u = (i/count)·2π satisfies u ≥ π has z-coordinate 30·spacing·16·sin u for
every time — independent of time — while its x and y coordinates do vary
with time; an object with u < π instead has x and z of the shape
(static term) + coefficient·cos(v), the cos(v) coefficients being
30·spacing·4·(1−cos u/2)·cos u for x and 30·spacing·4·(1−cos u/2)·sin u
for z (either of which can vanish, e.g. the z one at u = 0). -/
theorem klein_branch_C10 (count i pk qk : ℕ) (s : ℝ) (g : Glyph)
    (h1 : 1 ≤ count) (h2 : i < count) (hs : 0 < s) :
    let u := ((i : ℝ) / (count : ℝ)) * Real.pi * 2
    (Real.pi ≤ u →
      (∀ t : ℝ, ((animatedUpdate ⟨Shape.klein, s, pk, qk⟩ count t i g).pos).z =
          30 * s * (16 * Real.sin u)) ∧
      (∃ t₁ t₂ : ℝ,
        ((animatedUpdate ⟨Shape.klein, s, pk, qk⟩ count t₁ i g).pos).x ≠
          ((animatedUpdate ⟨Shape.klein, s, pk, qk⟩ count t₂ i g).pos).x) ∧
      (∃ t₁ t₂ : ℝ,
        ((animatedUpdate ⟨Shape.klein, s, pk, qk⟩ count t₁ i g).pos).y ≠
          ((animatedUpdate ⟨Shape.klein, s, pk, qk⟩ count t₂ i g).pos).y)) ∧
    (u < Real.pi →
      ∀ t : ℝ,
        ((animatedUpdate ⟨Shape.klein, s, pk, qk⟩ count t i g).pos).x =
          30 * s * (6 * Real.cos u * (1 + Real.sin u)) +
            30 * s * (4 * (1 - Real.cos u / 2) * Real.cos u) * Real.cos (t * 0.5) ∧
        ((animatedUpdate ⟨Shape.klein, s, pk, qk⟩ count t i g).pos).z =
          30 * s * (16 * Real.sin u) +
            30 * s * (4 * (1 - Real.cos u / 2) * Real.sin u) * Real.cos (t * 0.5)) := by
  intro u
  have hpos : ∀ t : ℝ, (animatedUpdate ⟨Shape.klein, s, pk, qk⟩ count t i g).pos =
      kleinUV (30 * s) u (t * 0.5) := fun t => rfl
  have hc : Real.cos u ≤ 1 := Real.cos_le_one u
  have hcpos : 0 < 1 - Real.cos u / 2 := by nlinarith [hc]
  constructor
  · intro hge
    have hnlt : ¬ u < Real.pi := not_lt.mpr hge
    have hxform : ∀ t : ℝ,
        ((animatedUpdate ⟨Shape.klein, s, pk, qk⟩ count t i g).pos).x =
          30 * s * (6 * Real.cos u * (1 + Real.sin u) -
            4 * (1 - Real.cos u / 2) * Real.cos (t * 0.5)) := by
      intro t
      rw [hpos t]
      unfold kleinUV
      rw [if_neg hnlt]
    have hyform : ∀ t : ℝ,
        ((animatedUpdate ⟨Shape.klein, s, pk, qk⟩ count t i g).pos).y =
          30 * s * (4 * (1 - Real.cos u / 2) * Real.sin (t * 0.5)) := by
      intro t
      rw [hpos t]
      unfold kleinUV
      rw [if_neg hnlt]
    refine ⟨?_, ?_, ?_⟩
    · intro t
      rw [hpos t]
      unfold kleinUV
      rw [if_neg hnlt]
    · refine ⟨0, 2 * Real.pi, ?_⟩
      rw [hxform 0, hxform (2 * Real.pi),
          show (0 : ℝ) * 0.5 = 0 by ring,
          show (2 * Real.pi) * 0.5 = Real.pi by ring,
          Real.cos_zero, Real.cos_pi]
      intro heq
      nlinarith [heq, mul_pos hs hcpos]
    · refine ⟨0, Real.pi, ?_⟩
      rw [hyform 0, hyform Real.pi,
          show (0 : ℝ) * 0.5 = 0 by ring,
          show Real.pi * 0.5 = Real.pi / 2 by ring,
          Real.sin_zero, Real.sin_pi_div_two]
      intro heq
      nlinarith [heq, mul_pos hs hcpos]
  · intro hlt t
    constructor
    · rw [hpos t]
      unfold kleinUV
      rw [if_pos hlt]
      show (30 * s) * (6 * Real.cos u * (1 + Real.sin u) +
          4 * (1 - Real.cos u / 2) * Real.cos u * Real.cos (t * 0.5)) = _
      ring
    · rw [hpos t]
      unfold kleinUV
      rw [if_pos hlt]
      show (30 * s) * (16 * Real.sin u +
          4 * (1 - Real.cos u / 2) * Real.sin u * Real.cos (t * 0.5)) = _
      ring

theorem klein_branch_C10_witness :
    (let u := ((1 : ℕ) : ℝ) / ((2 : ℕ) : ℝ) * Real.pi * 2
    (Real.pi ≤ u →
      (∀ t : ℝ, ((animatedUpdate ⟨Shape.klein, 1, 2, 3⟩ 2 t 1 gW).pos).z =
          30 * 1 * (16 * Real.sin u)) ∧
      (∃ t₁ t₂ : ℝ,
        ((animatedUpdate ⟨Shape.klein, 1, 2, 3⟩ 2 t₁ 1 gW).pos).x ≠
          ((animatedUpdate ⟨Shape.klein, 1, 2, 3⟩ 2 t₂ 1 gW).pos).x) ∧
      (∃ t₁ t₂ : ℝ,
        ((animatedUpdate ⟨Shape.klein, 1, 2, 3⟩ 2 t₁ 1 gW).pos).y ≠
          ((animatedUpdate ⟨Shape.klein, 1, 2, 3⟩ 2 t₂ 1 gW).pos).y)) ∧
    (u < Real.pi →
      ∀ t : ℝ,
        ((animatedUpdate ⟨Shape.klein, 1, 2, 3⟩ 2 t 1 gW).pos).x =
          30 * 1 * (6 * Real.cos u * (1 + Real.sin u)) +
            30 * 1 * (4 * (1 - Real.cos u / 2) * Real.cos u) * Real.cos (t * 0.5) ∧
        ((animatedUpdate ⟨Shape.klein, 1, 2, 3⟩ 2 t 1 gW).pos).z =
          30 * 1 * (16 * Real.sin u) +
            30 * 1 * (4 * (1 - Real.cos u / 2) * Real.sin u) * Real.cos (t * 0.5))) :=
  klein_branch_C10 2 1 2 3 1 gW (by norm_num) (by norm_num) (by norm_num)

/-- The helical offset built from a normalized normal and the cross product
of two normalized vectors has magnitude at most the helix radius. -/
theorem helix_offset_le (tv nv : Vec3) (a r : ℝ) (hr : 0 ≤ r) :
    vnorm ((Real.cos a * r) • vnormalize nv +
      (Real.sin a * r) • cross (vnormalize tv) (vnormalize nv)) ≤ r := by
  have hNN : vdot (vnormalize nv) (vnormalize nv) ≤ 1 := vdot_vnormalize_le_one nv
  have hTT : vdot (vnormalize tv) (vnormalize tv) ≤ 1 := vdot_vnormalize_le_one tv
  have hNB : vdot (vnormalize nv) (cross (vnormalize tv) (vnormalize nv)) = 0 :=
    vdot_cross_right (vnormalize tv) (vnormalize nv)
  have hBB : vdot (cross (vnormalize tv) (vnormalize nv))
      (cross (vnormalize tv) (vnormalize nv)) ≤ 1 := by
    rw [cross_lagrange]
    nlinarith [sq_nonneg (vdot (vnormalize tv) (vnormalize nv)), hTT, hNN,
      vdot_nonneg (vnormalize nv), vdot_nonneg (vnormalize tv)]
  have hdot : vdot
      ((Real.cos a * r) • vnormalize nv +
        (Real.sin a * r) • cross (vnormalize tv) (vnormalize nv))
      ((Real.cos a * r) • vnormalize nv +
        (Real.sin a * r) • cross (vnormalize tv) (vnormalize nv)) ≤ r ^ 2 := by
    rw [vdot_combo, hNB]
    have hs2 : Real.sin a ^ 2 + Real.cos a ^ 2 = 1 := Real.sin_sq_add_cos_sq a
    nlinarith [hNN, hBB, sq_nonneg (Real.cos a * r), sq_nonneg (Real.sin a * r), hs2,
      vdot_nonneg (vnormalize nv),
      vdot_nonneg (cross (vnormalize tv) (vnormalize nv))]
  unfold vnorm
  calc Real.sqrt (vdot _ _) ≤ Real.sqrt (r ^ 2) := Real.sqrt_le_sqrt hdot
  _ = r := Real.sqrt_sq hr

set_option maxHeartbeats 1600000 in
/-- C1 (amended): for the torus-klein-knot shape with positive spacing,
the base point P = torusKnotPos(u, p, q, 100·spacing, 40·spacing) lies at
distance exactly 40·spacing from the circle of radius 100·spacing in the
xy-plane, and the final written position differs from P by the helical
offset, whose magnitude is at most 15 — not exactly 15 in general, because
the finite-difference tangent is not exactly orthogonal to the tube
normal, so the binormal is slightly shorter than unit length. -/
theorem torus_knot_C1 (count i pk qk : ℕ) (s t : ℝ) (g : Glyph)
    (h1 : 1 ≤ count) (h2 : i < count) (ht : 0 ≤ t) (hs : 0 < s)
    (hp : 1 ≤ pk) (hq : 1 ≤ qk) :
    distToCircle
      (getTorusKnotPos ((((i : ℝ) / (count : ℝ)) + t * 0.05) * Real.pi * 2)
        (pk : ℝ) (qk : ℝ) (100 * s) (40 * s)) (100 * s) = 40 * s ∧
    vnorm ((animatedUpdate ⟨Shape.torusKleinKnot, s, pk, qk⟩ count t i g).pos -
      getTorusKnotPos ((((i : ℝ) / (count : ℝ)) + t * 0.05) * Real.pi * 2)
        (pk : ℝ) (qk : ℝ) (100 * s) (40 * s)) ≤ 15 := by
  constructor
  · have hpt : getTorusKnotPos ((((i : ℝ) / (count : ℝ)) + t * 0.05) * Real.pi * 2)
        (pk : ℝ) (qk : ℝ) (100 * s) (40 * s) =
        ⟨(100 * s + 40 * s * Real.cos
            ((qk : ℝ) * ((((i : ℝ) / (count : ℝ)) + t * 0.05) * Real.pi * 2))) *
          Real.cos ((pk : ℝ) * ((((i : ℝ) / (count : ℝ)) + t * 0.05) * Real.pi * 2)),
         (100 * s + 40 * s * Real.cos
            ((qk : ℝ) * ((((i : ℝ) / (count : ℝ)) + t * 0.05) * Real.pi * 2))) *
          Real.sin ((pk : ℝ) * ((((i : ℝ) / (count : ℝ)) + t * 0.05) * Real.pi * 2)),
         40 * s * Real.sin
            ((qk : ℝ) * ((((i : ℝ) / (count : ℝ)) + t * 0.05) * Real.pi * 2))⟩ := rfl
    rw [hpt]
    have hT : (0 : ℝ) ≤ 40 * s := by nlinarith
    have hA : 0 ≤ 100 * s + 40 * s * Real.cos
        ((qk : ℝ) * ((((i : ℝ) / (count : ℝ)) + t * 0.05) * Real.pi * 2)) := by
      nlinarith [Real.neg_one_le_cos
        ((qk : ℝ) * ((((i : ℝ) / (count : ℝ)) + t * 0.05) * Real.pi * 2))]
    exact tube_dist (100 * s) (40 * s) _ _ hT hA
  · have hpos : (animatedUpdate ⟨Shape.torusKleinKnot, s, pk, qk⟩ count t i g).pos =
        getTorusKnotPos ((((i : ℝ) / (count : ℝ)) + t * 0.05) * Real.pi * 2)
          (pk : ℝ) (qk : ℝ) (100 * s) (40 * s) +
        ((Real.cos (t * 5 + ((i : ℝ) / (count : ℝ)) * Real.pi * 8) * 15) •
            vnormalize (getTorusKnotPos
              ((((i : ℝ) / (count : ℝ)) + t * 0.05) * Real.pi * 2)
              (pk : ℝ) (qk : ℝ) (100 * s) (40 * s + 0.001) -
              getTorusKnotPos ((((i : ℝ) / (count : ℝ)) + t * 0.05) * Real.pi * 2)
                (pk : ℝ) (qk : ℝ) (100 * s) (40 * s)) +
          (Real.sin (t * 5 + ((i : ℝ) / (count : ℝ)) * Real.pi * 8) * 15) •
            cross
              (vnormalize (getTorusKnotPos
                ((((i : ℝ) / (count : ℝ)) + t * 0.05) * Real.pi * 2 + 0.001)
                (pk : ℝ) (qk : ℝ) (100 * s) (40 * s) -
                getTorusKnotPos ((((i : ℝ) / (count : ℝ)) + t * 0.05) * Real.pi * 2)
                  (pk : ℝ) (qk : ℝ) (100 * s) (40 * s)))
              (vnormalize (getTorusKnotPos
                ((((i : ℝ) / (count : ℝ)) + t * 0.05) * Real.pi * 2)
                (pk : ℝ) (qk : ℝ) (100 * s) (40 * s + 0.001) -
                getTorusKnotPos ((((i : ℝ) / (count : ℝ)) + t * 0.05) * Real.pi * 2)
                  (pk : ℝ) (qk : ℝ) (100 * s) (40 * s)))) := rfl
    rw [hpos, vec_add_sub_cancel]
    exact helix_offset_le _ _ _ 15 (by norm_num)

theorem torus_knot_C1_witness :
    distToCircle
      (getTorusKnotPos ((((0 : ℕ) : ℝ) / ((1 : ℕ) : ℝ) + 0 * 0.05) * Real.pi * 2)
        ((2 : ℕ) : ℝ) ((3 : ℕ) : ℝ) (100 * 1) (40 * 1)) (100 * 1) = 40 * 1 ∧
    vnorm ((animatedUpdate ⟨Shape.torusKleinKnot, 1, 2, 3⟩ 1 0 0 gW).pos -
      getTorusKnotPos ((((0 : ℕ) : ℝ) / ((1 : ℕ) : ℝ) + 0 * 0.05) * Real.pi * 2)
        ((2 : ℕ) : ℝ) ((3 : ℕ) : ℝ) (100 * 1) (40 * 1)) ≤ 15 :=
  torus_knot_C1 1 0 2 3 1 0 gW (le_refl 1) (by norm_num) (le_refl 0) (by norm_num)
    (by norm_num) (by norm_num)

/-- Scaling the cross product of a normalized vector with a unit vector not
orthogonal to it yields a vector strictly shorter than the scale. -/
theorem smul_cross_norm_lt (D n : Vec3) (hn : vdot n n = 1) (hd : vdot D n ≠ 0) :
    vnorm ((15 : ℝ) • cross (vnormalize D) n) < 15 := by
  have hD0 : vdot D D ≠ 0 := by
    intro hc
    apply hd
    have hx : D.x = 0 ∧ D.y = 0 ∧ D.z = 0 := by
      unfold vdot at hc
      refine ⟨?_, ?_, ?_⟩ <;>
        nlinarith [sq_nonneg D.x, sq_nonneg D.y, sq_nonneg D.z, hc]
    unfold vdot
    rw [hx.1, hx.2.1, hx.2.2]
    ring
  have hnorm_ne : vnorm D ≠ 0 := fun hc => hD0 ((vnorm_eq_zero_iff D).mp hc)
  have hTT : vdot (vnormalize D) (vnormalize D) = 1 := vdot_vnormalize_self D hnorm_ne
  have hTn : vdot (vnormalize D) n ≠ 0 := by
    rw [vdot_vnormalize_left D n hnorm_ne]
    exact mul_ne_zero (one_div_ne_zero hnorm_ne) hd
  have hlt : vdot ((15 : ℝ) • cross (vnormalize D) n)
      ((15 : ℝ) • cross (vnormalize D) n) < 225 := by
    rw [vdot_smul_smul, cross_lagrange, hTT, hn]
    nlinarith [sq_pos_of_ne_zero hTn]
  unfold vnorm
  calc Real.sqrt (vdot ((15 : ℝ) • cross (vnormalize D) n)
        ((15 : ℝ) • cross (vnormalize D) n)) < Real.sqrt 225 :=
        Real.sqrt_lt_sqrt (vdot_nonneg _) hlt
  _ = 15 := by
      rw [show (225 : ℝ) = 15 ^ 2 by norm_num,
        Real.sqrt_sq (by norm_num : (0 : ℝ) ≤ 15)]

set_option maxHeartbeats 1600000 in
/-- C1 counterexample: the helical offset magnitude is not exactly 15.
With 16 glyphs, spacing 1, p = 4, q = 8, time 0, object 1 sits at knot
parameter u = π/8; the helix angle is π/2, so the written position is
P + 15·(T × N) with T the normalized finite-difference tangent and N the
unit tube normal; T·N ≠ 0 there, so the offset is strictly shorter
than 15. -/
theorem torus_knot_C1_cex :
    vnorm (((updateAnimatedGlyphs cfgC1 0 stC1).glyphs.getD 1 gW).pos - PC1) ≠ 15 := by
  have hg : (updateAnimatedGlyphs cfgC1 0 stC1).glyphs.getD 1 gW =
      animatedUpdate cfgC1 16 0 1 gW := by
    unfold updateAnimatedGlyphs
    rw [if_neg (by simp [stC1])]
    show (updList (animatedUpdate cfgC1 stC1.glyphs.length 0) 0 stC1.glyphs).getD 1 gW = _
    rw [updList_getD _ gW stC1.glyphs 0 1 (by simp [stC1])]
    rfl
  rw [hg]
  have hpos : (animatedUpdate cfgC1 16 0 1 gW).pos =
      PC1 + ((Real.cos ((0 : ℝ) * 5 + ((1 : ℕ) : ℝ) / ((16 : ℕ) : ℝ) * Real.pi * 8) * 15) •
          vnormalize NC1 +
        (Real.sin ((0 : ℝ) * 5 + ((1 : ℕ) : ℝ) / ((16 : ℕ) : ℝ) * Real.pi * 8) * 15) •
          cross (vnormalize DC1) (vnormalize NC1)) := rfl
  rw [hpos, vec_add_sub_cancel]
  have ha : (0 : ℝ) * 5 + ((1 : ℕ) : ℝ) / ((16 : ℕ) : ℝ) * Real.pi * 8 = Real.pi / 2 := by
    push_cast
    ring
  rw [ha, Real.cos_pi_div_two, Real.sin_pi_div_two]
  have hoff : ((0 : ℝ) * 15) • vnormalize NC1 +
      ((1 : ℝ) * 15) • cross (vnormalize DC1) (vnormalize NC1) =
      (15 : ℝ) • cross (vnormalize DC1) (vnormalize NC1) := by
    ext <;> simp
  rw [hoff]
  have hu8 : ((8 : ℕ) : ℝ) * uC1 = Real.pi := by
    unfold uC1
    push_cast
    ring
  have hu4 : ((4 : ℕ) : ℝ) * uC1 = Real.pi / 2 := by
    unfold uC1
    push_cast
    ring
  have hNC1 : NC1 = ⟨0, -(1 / 1000), 0⟩ := by
    unfold NC1 PC1 getTorusKnotPos
    show (⟨(100 * 1 + (40 * 1 + 0.001) * Real.cos (((8 : ℕ) : ℝ) * uC1)) *
        Real.cos (((4 : ℕ) : ℝ) * uC1),
      (100 * 1 + (40 * 1 + 0.001) * Real.cos (((8 : ℕ) : ℝ) * uC1)) *
        Real.sin (((4 : ℕ) : ℝ) * uC1),
      (40 * 1 + 0.001) * Real.sin (((8 : ℕ) : ℝ) * uC1)⟩ : Vec3) -
      ⟨(100 * 1 + 40 * 1 * Real.cos (((8 : ℕ) : ℝ) * uC1)) *
        Real.cos (((4 : ℕ) : ℝ) * uC1),
      (100 * 1 + 40 * 1 * Real.cos (((8 : ℕ) : ℝ) * uC1)) *
        Real.sin (((4 : ℕ) : ℝ) * uC1),
      40 * 1 * Real.sin (((8 : ℕ) : ℝ) * uC1)⟩ = _
    rw [hu8, hu4, Real.cos_pi, Real.sin_pi, Real.cos_pi_div_two, Real.sin_pi_div_two]
    ext <;> norm_num
  have hN : vnormalize NC1 = ⟨0, -1, 0⟩ := by
    rw [hNC1]
    have hnv : vnorm ⟨0, -(1 / 1000), 0⟩ = 1 / 1000 := by
      unfold vnorm vdot
      rw [show (0 : ℝ) * 0 + -(1 / 1000) * -(1 / 1000) + 0 * 0 = (1 / 1000) ^ 2 by norm_num,
        Real.sqrt_sq (by norm_num : (0 : ℝ) ≤ 1 / 1000)]
    unfold vnormalize
    rw [hnv, if_neg (by norm_num : (1 / 1000 : ℝ) ≠ 0)]
    ext <;> simp
  rw [hN]
  have hu8e : ((8 : ℕ) : ℝ) * (uC1 + 0.001) = Real.pi + 0.008 := by
    unfold uC1
    push_cast
    ring
  have hu4e : ((4 : ℕ) : ℝ) * (uC1 + 0.001) = Real.pi / 2 + 0.004 := by
    unfold uC1
    push_cast
    ring
  have hDy : DC1.y = (100 - 40 * Real.cos 0.008) * Real.cos 0.004 - 60 := by
    show (100 * 1 + 40 * 1 * Real.cos (((8 : ℕ) : ℝ) * (uC1 + 0.001))) *
        Real.sin (((4 : ℕ) : ℝ) * (uC1 + 0.001)) -
      (100 * 1 + 40 * 1 * Real.cos (((8 : ℕ) : ℝ) * uC1)) *
        Real.sin (((4 : ℕ) : ℝ) * uC1) = _
    rw [hu8e, hu4e, hu8, hu4, Real.cos_add, Real.sin_add, Real.cos_pi, Real.sin_pi,
      Real.cos_pi_div_two, Real.sin_pi_div_two]
    ring
  have hDypos : 0 < DC1.y := by
    rw [hDy]
    have h8 := @Real.cos_bound 0.008
      (by rw [abs_of_nonneg (by norm_num : (0 : ℝ) ≤ 0.008)]; norm_num)
    have h4 := @Real.cos_bound 0.004
      (by rw [abs_of_nonneg (by norm_num : (0 : ℝ) ≤ 0.004)]; norm_num)
    rw [abs_of_nonneg (by norm_num : (0 : ℝ) ≤ 0.008)] at h8
    rw [abs_of_nonneg (by norm_num : (0 : ℝ) ≤ 0.004)] at h4
    obtain ⟨h8l, h8r⟩ := abs_le.mp h8
    obtain ⟨h4l, h4r⟩ := abs_le.mp h4
    have hb1 : Real.cos 0.008 ≤ 1 - 0.0000319 := by linarith [h8r]
    have hb2 : (0.99999 : ℝ) ≤ Real.cos 0.004 := by linarith [h4l]
    have hb3 : (60.001276 : ℝ) ≤ 100 - 40 * Real.cos 0.008 := by linarith [hb1]
    have hb4 := mul_le_mul hb3 hb2 (by norm_num)
      (le_trans (by norm_num : (0 : ℝ) ≤ 60.001276) hb3)
    nlinarith [hb4]
  have hdn : vdot DC1 ⟨0, -1, 0⟩ ≠ 0 := by
    unfold vdot
    intro hc
    simp at hc
    nlinarith [hDypos, hc]
  exact ne_of_lt (smul_cross_norm_lt DC1 ⟨0, -1, 0⟩ (by unfold vdot; norm_num) hdn)

end
